import Mathlib

/-!
Verification of the boundary-safety and text-protocol marshalling layer of
an Apple Reminders automation server (`server.py`).

Strings are modelled as `List Char`.  Python's `str.replace(old, new)` with a
single-character pattern is modelled by `replaceChar`; `str.strip()` by
`pyStrip` (ASCII whitespace); `str.split('\n')` by `splitChar '\n'`;
`str.split('|||')` by `splitPipes`; `str.startswith(t)` by
`List.isPrefixOf`.  Python `int` is modelled by `Int`.
-/

/-- The single-quote character, written via its code point. -/
def squote : Char := Char.ofNat 39

/-- Python `s.replace(old, new)` for a single-character pattern `old`:
every occurrence of `old` is replaced by the word `new`. -/
def replaceChar (old : Char) (new : List Char) : List Char → List Char
  | [] => []
  | c :: rest => (if c = old then new else [c]) ++ replaceChar old new rest

/-- `sanitize_for_applescript` from `server.py` (lines 18-29): `None` maps to
the empty string; otherwise backslashes are escaped first, then double
quotes. -/
def sanitize_for_applescript : Option (List Char) → List Char
  | none => []
  | some t => replaceChar '"' ['\\', '"'] (replaceChar '\\' ['\\', '\\'] t)

/-- Single-pass escaping of one character: backslash and double quote each
receive a preceding backslash, every other character is unchanged. -/
def escChar (c : Char) : List Char :=
  if c = '\\' then ['\\', '\\']
  else if c = '"' then ['\\', '"']
  else [c]

theorem replaceChar_append (old : Char) (new : List Char) (a b : List Char) :
    replaceChar old new (a ++ b) = replaceChar old new a ++ replaceChar old new b := by
  induction a with
  | nil => simp [replaceChar]
  | cons c rest ih => simp [replaceChar, ih]

theorem sanitize_eq_flatMap (t : List Char) :
    sanitize_for_applescript (some t) = t.flatMap escChar := by
  induction t with
  | nil => simp [sanitize_for_applescript, replaceChar]
  | cons c rest ih =>
    simp only [sanitize_for_applescript] at ih
    simp only [sanitize_for_applescript, replaceChar, replaceChar_append, List.flatMap_cons]
    by_cases hb : c = '\\'
    · subst hb
      simp [replaceChar, escChar, ih]
    · by_cases hq : c = '"'
      · subst hq
        simp [replaceChar, escChar, hb, ih]
      · simp [replaceChar, escChar, hb, hq, ih]

/-- C2: the sanitizer escapes backslashes first and double quotes second.
Equivalently the result is the single left-to-right pass `escChar` over the
input (the order invariant: quote-escaping never re-escapes the backslashes
that backslash-escaping introduced); absent input and the empty string map
to the empty string; text free of quotes and backslashes is unchanged; and
the string `"C:\a"` (quotes and backslash together) escapes to
`\"C:\\a\"`. -/
theorem sanitize_spec :
    (∀ t, sanitize_for_applescript (some t) = t.flatMap escChar)
    ∧ sanitize_for_applescript none = []
    ∧ sanitize_for_applescript (some []) = []
    ∧ (∀ t, (∀ c ∈ t, c ≠ '"' ∧ c ≠ '\\') → sanitize_for_applescript (some t) = t)
    ∧ sanitize_for_applescript (some ['"', 'C', ':', '\\', 'a', '"'])
        = ['\\', '"', 'C', ':', '\\', '\\', 'a', '\\', '"'] := by
  refine ⟨sanitize_eq_flatMap, rfl, rfl, ?_, by decide⟩
  intro t h
  rw [sanitize_eq_flatMap]
  induction t with
  | nil => simp
  | cons c rest ih =>
    have hc := h c (by simp)
    have hrest : ∀ c ∈ rest, c ≠ '"' ∧ c ≠ '\\' := fun x hx => h x (by simp [hx])
    simp only [List.flatMap_cons, escChar, if_neg hc.2, if_neg hc.1, List.singleton_append,
      List.cons.injEq, true_and]
    exact ih hrest

/-- Witness for `sanitize_spec`: plain text is left unchanged. -/
theorem sanitize_spec_witness :
    sanitize_for_applescript (some ['a', 'b', 'c']) = ['a', 'b', 'c'] :=
  sanitize_spec.2.2.2.1 ['a', 'b', 'c'] (by decide)

/-- The escaping test used for runs of backslashes. -/
def backslashTest (c : Char) : Bool := c == '\\'

/-- Length of the maximal run of backslashes at the end of `l`. -/
def trailingRun (l : List Char) : Nat :=
  (l.reverse.takeWhile backslashTest).length

theorem escChar_backslash : escChar '\\' = ['\\', '\\'] := rfl

theorem escChar_quote : escChar '"' = ['\\', '"'] := rfl

theorem escChar_other (c : Char) (hb : c ≠ '\\') (hq : c ≠ '"') : escChar c = [c] := by
  simp [escChar, hb, hq]

theorem all_rev (p : Char → Bool) (w : List Char) : w.reverse.all p = w.all p := by
  induction w with
  | nil => rfl
  | cons c rest ih =>
    simp [List.all_append, List.all_cons, ih, Bool.and_comm]

theorem takeWhile_append_of_all (p : Char → Bool) (a b : List Char) (h : a.all p = true) :
    (a ++ b).takeWhile p = a ++ b.takeWhile p := by
  induction a with
  | nil => simp
  | cons c rest ih =>
    simp only [List.all_cons, Bool.and_eq_true] at h
    simp [List.takeWhile_cons, h.1, ih h.2]

theorem takeWhile_append_of_not_all (p : Char → Bool) (a b : List Char) (h : a.all p = false) :
    (a ++ b).takeWhile p = a.takeWhile p := by
  induction a with
  | nil => simp at h
  | cons c rest ih =>
    cases hp : p c with
    | false => simp [List.takeWhile_cons, hp]
    | true =>
      simp only [List.all_cons, hp, Bool.true_and] at h
      simp [List.takeWhile_cons, hp, ih h]

theorem trailingRun_of_all (w : List Char) (h : w.all backslashTest = true) :
    trailingRun w = w.length := by
  unfold trailingRun
  rw [List.takeWhile_eq_self_iff.mpr ?_, List.length_reverse]
  intro x hx
  exact List.all_eq_true.mp h x (List.mem_reverse.mp hx)

theorem trailingRun_cons_of_not_all (a : Char) (w : List Char)
    (h : w.all backslashTest = false) :
    trailingRun (a :: w) = trailingRun w := by
  unfold trailingRun
  rw [List.reverse_cons,
    takeWhile_append_of_not_all backslashTest w.reverse [a] (by rw [all_rev]; exact h)]

theorem trailingRun_cons_ne (c : Char) (u : List Char) (hc : c ≠ '\\') :
    trailingRun (c :: u) = trailingRun u := by
  cases hall : u.all backslashTest with
  | false => exact trailingRun_cons_of_not_all c u hall
  | true =>
    unfold trailingRun
    rw [List.reverse_cons,
      takeWhile_append_of_all backslashTest u.reverse [c] (by rw [all_rev]; exact hall)]
    have hone : [c].takeWhile backslashTest = [] := by
      simp [List.takeWhile_cons, backslashTest, hc]
    rw [hone, List.append_nil]
    have hall2 : (u.reverse.takeWhile backslashTest) = u.reverse := by
      refine List.takeWhile_eq_self_iff.mpr ?_
      intro x hx
      exact List.all_eq_true.mp hall x (List.mem_reverse.mp hx)
    rw [hall2]

theorem trailingRun_two_backslashes (u : List Char) :
    trailingRun ('\\' :: '\\' :: u) % 2 = trailingRun u % 2 := by
  cases hall : u.all backslashTest with
  | true =>
    have h1 : ('\\' :: '\\' :: u).all backslashTest = true := by
      simp [List.all_cons, hall, backslashTest]
    rw [trailingRun_of_all _ h1, trailingRun_of_all _ hall]
    simp only [List.length_cons]
    omega
  | false =>
    have h1 : ('\\' :: u).all backslashTest = false := by
      simp [List.all_cons, hall]
    rw [trailingRun_cons_of_not_all _ _ h1, trailingRun_cons_of_not_all _ _ hall]

theorem trailingRun_backslash_quote (u : List Char) :
    trailingRun ('\\' :: '"' :: u) = trailingRun u := by
  have hbq : backslashTest '"' = false := by decide
  have h1 : ('"' :: u).all backslashTest = false := by
    simp [List.all_cons, hbq]
  rw [trailingRun_cons_of_not_all _ _ h1, trailingRun_cons_ne _ _ (by decide)]

theorem flatMap_esc_quote_odd : ∀ (t u v : List Char),
    t.flatMap escChar = u ++ '"' :: v → trailingRun u % 2 = 1 := by
  intro t
  induction t with
  | nil =>
    intro u v h
    simp at h
  | cons c rest ih =>
    intro u v h
    simp only [List.flatMap_cons] at h
    by_cases hb : c = '\\'
    · subst hb
      rw [escChar_backslash] at h
      cases u with
      | nil => simp at h
      | cons x u' =>
        cases u' with
        | nil => simp at h
        | cons y u'' =>
          simp only [List.cons_append, List.cons.injEq] at h
          obtain ⟨hx, hy, hF⟩ := h
          subst hx; subst hy
          rw [trailingRun_two_backslashes]
          exact ih u'' v hF
    · by_cases hq : c = '"'
      · subst hq
        rw [escChar_quote] at h
        cases u with
        | nil => simp at h
        | cons x u' =>
          cases u' with
          | nil =>
            simp only [List.cons_append, List.nil_append, List.cons.injEq] at h
            obtain ⟨hx, -⟩ := h
            subst hx
            decide
          | cons y u'' =>
            simp only [List.cons_append, List.cons.injEq] at h
            obtain ⟨hx, hy, hF⟩ := h
            subst hx; subst hy
            rw [trailingRun_backslash_quote]
            exact ih u'' v hF
      · rw [escChar_other c hb hq] at h
        cases u with
        | nil =>
          simp only [List.nil_append, List.singleton_append, List.cons.injEq] at h
          exact absurd h.1 hq
        | cons x u' =>
          simp only [List.cons_append, List.singleton_append, List.cons.injEq] at h
          obtain ⟨hx, hF⟩ := h
          subst hx
          rw [trailingRun_cons_ne c u' hb]
          exact ih u' v hF

/-- C3: the sanitizer is a total function (it is defined for absent input,
the empty string, and arbitrary character content), and its output is safe
inside a double-quoted script literal: wherever the output decomposes as
`u ++ quote :: v`, the run of backslashes at the end of `u` has odd length,
so every double quote in the output is escaped. -/
theorem sanitize_quotes_escaped (t : Option (List Char)) (u v : List Char)
    (h : sanitize_for_applescript t = u ++ '"' :: v) :
    Odd (trailingRun u) := by
  rw [Nat.odd_iff]
  cases t with
  | none =>
    simp [sanitize_for_applescript] at h
  | some t' =>
    rw [sanitize_eq_flatMap] at h
    exact flatMap_esc_quote_odd t' u v h

/-- Witness for `sanitize_quotes_escaped` at the input `a"b`. -/
theorem sanitize_quotes_escaped_witness :
    sanitize_for_applescript (some ['a', '"', 'b']) = ['a', '\\'] ++ '"' :: ['b']
    ∧ Odd (trailingRun ['a', '\\']) :=
  ⟨by decide, sanitize_quotes_escaped (some ['a', '"', 'b']) ['a', '\\'] ['b'] (by decide)⟩

/-- The ASCII whitespace characters removed by Python `str.strip`. -/
def isPySpace (c : Char) : Bool :=
  c == ' ' || c == '\t' || c == '\n' || c == '\r' || c == '\x0B' || c == '\x0C'

/-- Python `s.strip()`. -/
def pyStrip (l : List Char) : List Char :=
  ((l.dropWhile isPySpace).reverse.dropWhile isPySpace).reverse

/-- Python `s.split(sep)` for a single-character separator. -/
def splitChar (sep : Char) : List Char → List (List Char)
  | [] => [[]]
  | c :: rest =>
    match splitChar sep rest with
    | [] => if c = sep then [[], []] else [[c]]
    | r :: rs => if c = sep then [] :: r :: rs else (c :: r) :: rs

/-- Python `s.split('|||')`: split on leftmost occurrences of three
consecutive pipes. -/
def splitPipes : List Char → List (List Char)
  | [] => [[]]
  | '|' :: '|' :: '|' :: rest => [] :: splitPipes rest
  | c :: rest =>
    match splitPipes rest with
    | [] => [[c]]
    | r :: rs => (c :: r) :: rs

/-- The reserved leading tag of a scripted error. -/
def errTag : List Char := ['E', 'R', 'R', 'O', 'R', ':']

/-- The reserved leading tag of a scripted delete success. -/
def successTag : List Char := ['S', 'U', 'C', 'C', 'E', 'S', 'S', ':']

/-- The reserved leading tag of a scripted delete miss. -/
def notFoundTag : List Char := ['N', 'O', 'T', '_', 'F', 'O', 'U', 'N', 'D', ':']

/-- The token compared against the fourth wire field. -/
def trueTok : List Char := ['t', 'r', 'u', 'e']

/-- One decoded reminder record (the JSON object built at source lines
205-210). -/
structure ReminderData where
  name : List Char
  body : List Char
  due_date : List Char
  completed : Bool
deriving DecidableEq

/-- The record built from the fields of one wire line (source lines 205-210).
The source's `parts[1] if parts[1] else ""` and `parts[2] if parts[2] else ""`
are the identity on the field (an empty field is replaced by the empty
string), so each field is taken as is. -/
def mkRecord (parts : List (List Char)) : ReminderData :=
  { name := parts.getD 0 []
    body := parts.getD 1 []
    due_date := parts.getD 2 []
    completed := parts.getD 3 [] == trueTok }

/-- Return shape of `get_reminder`: the JSON error object or the JSON array
of records. -/
inductive GetResult where
  | errorJson (msg : List Char)
  | records (rs : List ReminderData)
deriving DecidableEq

/-- Return shape of `list_reminder_lists`. -/
inductive ListsResult where
  | errorJson (msg : List Char)
  | names (ns : List (List Char))
deriving DecidableEq

/-- The four result branches of `delete_reminder` (source lines 342-349),
tagged by which branch of the if-chain produced the returned text. -/
inductive DeleteOutcome where
  | success (msg : List Char)
  | notFound (msg : List Char)
  | error (msg : List Char)
  | other (msg : List Char)
deriving DecidableEq

/-- The record-accumulation loop of `get_reminder` (source lines 201-213):
blank lines are skipped, lines with fewer than four fields are skipped, and
after each append the loop stops once the accumulated count reaches
`limit`. -/
def get_loop (limit : Int) : List (List Char) → List ReminderData → List ReminderData
  | [], acc => acc
  | line :: rest, acc =>
    if (pyStrip line).isEmpty then get_loop limit rest acc
    else if 4 ≤ (splitPipes line).length then
      let acc2 := acc ++ [mkRecord (splitPipes line)]
      if limit ≤ (acc2.length : Int) then acc2
      else get_loop limit rest acc2
    else get_loop limit rest acc

/-- Decoding of raw get output (source lines 192-215). -/
def get_decode (result : List Char) (limit : Int) : GetResult :=
  if result.isEmpty || errTag.isPrefixOf result then
    if errTag.isPrefixOf result then .errorJson result
    else .records []
  else .records (get_loop limit (splitChar '\n' (pyStrip result)) [])

/-- All records the loop would accept with no limit: one record per line that
is nonblank and splits into at least four fields, in input order. -/
def validRecords : List (List Char) → List ReminderData
  | [] => []
  | line :: rest =>
    if (pyStrip line).isEmpty then validRecords rest
    else if 4 ≤ (splitPipes line).length then
      mkRecord (splitPipes line) :: validRecords rest
    else validRecords rest

/-- Decoding of raw list-lists output (source lines 248-255). -/
def lists_decode (result : List Char) : ListsResult :=
  if result.isEmpty then .names []
  else if errTag.isPrefixOf result then .errorJson result
  else .names
    (((splitChar '\n' (pyStrip result)).filter fun n => !(pyStrip n).isEmpty).map pyStrip)

/-- Decoding of raw delete output (source lines 342-349): the branch taken
and the text returned from it.  `result[9:]` drops the eight tag characters
and one more; `result[11:]` drops the ten tag characters and one more. -/
def delete_decode (result : List Char) : DeleteOutcome :=
  if successTag.isPrefixOf result then .success (result.drop 9)
  else if notFoundTag.isPrefixOf result then .notFound (result.drop 11)
  else if errTag.isPrefixOf result then .error result
  else .other (("Reminder deletion completed. ").data ++ result)

/-- The message built by `create_reminder` from its raw script output
(source line 121); the raw title and list name, not their sanitized forms,
appear in this caller-facing message, which is not script text. -/
def create_result (title list_name raw : List Char) : List Char :=
  ("Reminder ").data ++ [squote] ++ title ++ [squote]
    ++ (" created successfully in list ").data ++ [squote] ++ list_name ++ [squote]
    ++ (". AppleScript Output: ").data ++ raw

/-- `"true" if completed else "false"` (source line 149). -/
def completedStr (completed : Bool) : List Char :=
  if completed then ("true").data else ("false").data

/-- The get-operation script template (source lines 151-188). -/
def get_script (safe_list_name : List Char) (completed : Bool) : List Char :=
  ("\ntell application \"Reminders\"\n    set output to \"\"\n    try\n        set targetList to list \"").data
  ++ safe_list_name
  ++ ("\"\n        set allReminders to reminders of targetList\n        \n        repeat with currentReminder in allReminders\n            set isCompleted to completed of currentReminder\n            if (isCompleted as string) is \"").data
  ++ completedStr completed
  ++ ("\" then\n                set reminderName to name of currentReminder\n                \n                set reminderBody to \"\"\n                try\n                    set reminderBody to body of currentReminder\n                on error\n                    set reminderBody to \"\"\n                end try\n                \n                set reminderDue to \"\"\n                try\n                    set reminderDue to (due date of currentReminder) as string\n                on error\n                    set reminderDue to \"\"\n                end try\n                \n                set completedStatus to (completed of currentReminder) as string\n                \n                set output to output & reminderName & \"|||\" & reminderBody & \"|||\" & reminderDue & \"|||\" & completedStatus & \"\\n\"\n            end if\n        end repeat\n        \n        return output\n    on error errorMessage\n        return \"ERROR: \" & errorMessage\n    end try\nend tell\n").data

/-- The `get_reminder` operation (source lines 128-219) with the process
runner abstracted as a function argument.  Python's `if not list_name`
treats both an absent and an empty list name as missing. -/
def get_reminder (list_name : Option (List Char)) (completed : Bool) (limit : Int)
    (runner : List Char → List Char) : GetResult :=
  if (list_name.getD []).isEmpty then
    .errorJson ("list_name is required").data
  else
    get_decode (runner (get_script (sanitize_for_applescript list_name) completed)) limit

/-- Substring test: whether `needle` occurs contiguously in the second
argument. -/
def containsSub (needle : List Char) : List Char → Bool
  | [] => needle.isEmpty
  | c :: rest => needle.isPrefixOf (c :: rest) || containsSub needle rest

/-- The delete-operation script for a given list (source lines 282-306).
The comparison and the target list use the sanitized `safe_name` and
`safe_list_name`; the SUCCESS and NOT_FOUND message literals interpolate the
raw `name` and `list_name` exactly as the source f-string does. -/
def delete_script_with_list (name list_name : List Char) : List Char :=
  ("\ntell application \"Reminders\"\n    set deletedCount to 0\n    try\n        set targetList to list \"").data
  ++ sanitize_for_applescript (some list_name)
  ++ ("\"\n        set allReminders to reminders of targetList\n        \n        repeat with currentReminder in allReminders\n            if name of currentReminder is \"").data
  ++ sanitize_for_applescript (some name)
  ++ ("\" then\n                delete currentReminder\n                set deletedCount to deletedCount + 1\n            end if\n        end repeat\n        \n        if deletedCount > 0 then\n            return \"SUCCESS: Deleted \" & deletedCount & \" reminder(s) named ").data
  ++ [squote] ++ name ++ [squote]
  ++ (" from list ").data
  ++ [squote] ++ list_name ++ [squote]
  ++ ("\"\n        else\n            return \"NOT_FOUND: No reminder named ").data
  ++ [squote] ++ name ++ [squote]
  ++ (" found in list ").data
  ++ [squote] ++ list_name ++ [squote]
  ++ ("\"\n        end if\n        \n    on error errorMessage\n        return \"ERROR: \" & errorMessage\n    end try\nend tell\n").data

set_option maxRecDepth 8000

/-- C4 fails on the code: raw output `ERROR: boom` decodes, for the get and
delete operations, to a failure carrying the full tagged text, not the
remainder `boom`. -/
theorem error_tag_counterexample :
    get_decode ("ERROR: boom").data 20 = .errorJson ("ERROR: boom").data
    ∧ get_decode ("ERROR: boom").data 20 ≠ .errorJson ("boom").data
    ∧ delete_decode ("ERROR: boom").data = .error ("ERROR: boom").data
    ∧ delete_decode ("ERROR: boom").data ≠ .error ("boom").data :=
  ⟨by decide, by decide, by decide, by decide⟩

/-- C4 amended: for the get, list-lists and delete operations a leading
`ERROR:` tag maps to the failure branch carrying the full tagged text, tag
included; the create operation performs no tag check and appends the raw
output, tag and all, to a confirmation prefix that does not depend on the
raw output. -/
theorem isPrefixOf_append_self (a b : List Char) : a.isPrefixOf (a ++ b) = true := by
  rw [List.isPrefixOf_iff_prefix]
  exact List.prefix_append a b

theorem error_tag_maps_to_failure_full_text :
    (∀ (m : List Char) (limit : Int),
      get_decode (errTag ++ m) limit = .errorJson (errTag ++ m))
    ∧ (∀ m : List Char, lists_decode (errTag ++ m) = .errorJson (errTag ++ m))
    ∧ (∀ m : List Char, delete_decode (errTag ++ m) = .error (errTag ++ m))
    ∧ (∀ title list_name : List Char, ∃ p : List Char,
        ∀ raw, create_result title list_name raw = p ++ raw) := by
  refine ⟨fun m limit => ?_, fun m => ?_, fun m => ?_, fun t l => ?_⟩
  · have hp := isPrefixOf_append_self errTag m
    have hne : (errTag ++ m).isEmpty = false := by simp [errTag]
    simp [get_decode, hp, hne]
  · have hp := isPrefixOf_append_self errTag m
    have hne : (errTag ++ m).isEmpty = false := by simp [errTag]
    simp [lists_decode, hp, hne]
  · have hp := isPrefixOf_append_self errTag m
    have hs : successTag.isPrefixOf (errTag ++ m) = false := by
      simp [successTag, errTag, List.isPrefixOf]
    have hn : notFoundTag.isPrefixOf (errTag ++ m) = false := by
      simp [notFoundTag, errTag, List.isPrefixOf]
    simp [delete_decode, hp, hs, hn]
  · refine ⟨("Reminder ").data ++ [squote] ++ t ++ [squote]
      ++ (" created successfully in list ").data ++ [squote] ++ l ++ [squote]
      ++ (". AppleScript Output: ").data, fun raw => ?_⟩
    simp [create_result, List.append_assoc]

/-- C6: for the delete operation a leading `NOT_FOUND: ` decodes to the
distinguished not-found branch — not the failure branch — carrying the text
after the tag and its following space; a leading `SUCCESS: ` decodes to the
success branch likewise; raw output `NOT_FOUND: none here` yields the
not-found branch with message `none here`. -/
theorem delete_decode_tags :
    (∀ m : List Char, delete_decode (notFoundTag ++ ' ' :: m) = .notFound m)
    ∧ (∀ m : List Char, delete_decode (successTag ++ ' ' :: m) = .success m)
    ∧ delete_decode ("NOT_FOUND: none here").data = .notFound ("none here").data := by
  refine ⟨fun m => ?_, fun m => ?_, by decide⟩
  · have hs : successTag.isPrefixOf (notFoundTag ++ ' ' :: m) = false := by
      simp [successTag, notFoundTag, List.isPrefixOf]
    have hn : notFoundTag.isPrefixOf (notFoundTag ++ ' ' :: m) = true := by
      rw [List.isPrefixOf_iff_prefix]
      exact List.prefix_append notFoundTag (' ' :: m)
    have hd : (notFoundTag ++ ' ' :: m).drop 11 = m := by simp [notFoundTag]
    simp [delete_decode, hs, hn, hd]
  · have hs : successTag.isPrefixOf (successTag ++ ' ' :: m) = true := by
      rw [List.isPrefixOf_iff_prefix]
      exact List.prefix_append successTag (' ' :: m)
    have hd : (successTag ++ ' ' :: m).drop 9 = m := by simp [successTag]
    simp [delete_decode, hs, hd]

/-- C7: with the list name absent (None or the empty string),
`get_reminder` returns the JSON error object for `list_name is required`,
and the result is the same for every runner, so no process output is
consulted. -/
theorem get_reminder_missing_list_name :
    ∀ (completed : Bool) (limit : Int) (runner runner2 : List Char → List Char),
      get_reminder none completed limit runner = .errorJson ("list_name is required").data
      ∧ get_reminder (some []) completed limit runner
          = .errorJson ("list_name is required").data
      ∧ get_reminder none completed limit runner = get_reminder none completed limit runner2 :=
  fun _ _ _ _ => ⟨rfl, rfl, rfl⟩

theorem get_loop_cons_skip (limit : Int) (line : List Char) (rest : List (List Char))
    (acc : List ReminderData) (hs : (pyStrip line).isEmpty = true) :
    get_loop limit (line :: rest) acc = get_loop limit rest acc := by
  simp [get_loop, hs]

theorem get_loop_cons_invalid (limit : Int) (line : List Char) (rest : List (List Char))
    (acc : List ReminderData) (h4 : ¬ 4 ≤ (splitPipes line).length) :
    get_loop limit (line :: rest) acc = get_loop limit rest acc := by
  by_cases hs : (pyStrip line).isEmpty = true
  · simp [get_loop, hs]
  · simp [get_loop, hs, h4]

theorem get_loop_cons_valid (limit : Int) (line : List Char) (rest : List (List Char))
    (acc : List ReminderData)
    (hs : ¬ (pyStrip line).isEmpty = true) (h4 : 4 ≤ (splitPipes line).length) :
    get_loop limit (line :: rest) acc
      = if limit ≤ ((acc.length : Int) + 1)
        then acc ++ [mkRecord (splitPipes line)]
        else get_loop limit rest (acc ++ [mkRecord (splitPipes line)]) := by
  simp [get_loop, hs, h4]

theorem validRecords_cons_skip (line : List Char) (rest : List (List Char))
    (hs : (pyStrip line).isEmpty = true) :
    validRecords (line :: rest) = validRecords rest := by
  simp [validRecords, hs]

theorem validRecords_cons_invalid (line : List Char) (rest : List (List Char))
    (h4 : ¬ 4 ≤ (splitPipes line).length) :
    validRecords (line :: rest) = validRecords rest := by
  by_cases hs : (pyStrip line).isEmpty = true
  · simp [validRecords, hs]
  · simp [validRecords, hs, h4]

theorem validRecords_cons_valid (line : List Char) (rest : List (List Char))
    (hs : ¬ (pyStrip line).isEmpty = true) (h4 : 4 ≤ (splitPipes line).length) :
    validRecords (line :: rest) = mkRecord (splitPipes line) :: validRecords rest := by
  simp [validRecords, hs, h4]

theorem get_loop_take (limit : Int) :
    ∀ (lines : List (List Char)) (acc : List ReminderData),
      (acc.length : Int) < limit →
      get_loop limit lines acc
        = acc ++ (validRecords lines).take (limit.toNat - acc.length) := by
  intro lines
  induction lines with
  | nil =>
    intro acc h
    simp [get_loop, validRecords]
  | cons line rest ih =>
    intro acc h
    by_cases hs : (pyStrip line).isEmpty = true
    · rw [get_loop_cons_skip limit line rest acc hs, validRecords_cons_skip line rest hs]
      exact ih acc h
    · by_cases h4 : 4 ≤ (splitPipes line).length
      · rw [get_loop_cons_valid limit line rest acc hs h4,
            validRecords_cons_valid line rest hs h4]
        by_cases hbreak : limit ≤ ((acc.length : Int) + 1)
        · rw [if_pos hbreak]
          have hn : limit.toNat - acc.length = 1 := by omega
          rw [hn]
          simp
        · rw [if_neg hbreak]
          have hlt : (((acc ++ [mkRecord (splitPipes line)]).length : Nat) : Int) < limit := by
            simp only [List.length_append, List.length_cons, List.length_nil]
            omega
          rw [ih _ hlt]
          have hn : limit.toNat - acc.length
              = (limit.toNat - (acc ++ [mkRecord (splitPipes line)]).length) + 1 := by
            simp only [List.length_append, List.length_cons, List.length_nil]
            omega
          rw [hn]
          simp [List.take_succ_cons]
      · rw [get_loop_cons_invalid limit line rest acc h4, validRecords_cons_invalid line rest h4]
        exact ih acc h

/-- C5: with `limit ≥ 1` and more than `limit` valid record lines in the raw
output, get decoding returns exactly the first `limit` records in input
order; the excess lines are processed but contribute nothing. -/
theorem get_decode_limit_cutoff (raw : List Char) (limit : Int)
    (h1 : 1 ≤ limit)
    (hne : raw ≠ [])
    (herr : errTag.isPrefixOf raw = false)
    (hcount : limit < ((validRecords (splitChar '\n' (pyStrip raw))).length : Int)) :
    get_decode raw limit
      = .records ((validRecords (splitChar '\n' (pyStrip raw))).take limit.toNat)
    ∧ ((validRecords (splitChar '\n' (pyStrip raw))).take limit.toNat).length
        = limit.toNat := by
  constructor
  · have hni : raw.isEmpty = false := by
      cases raw with
      | nil => exact absurd rfl hne
      | cons c r => rfl
    have hz : (([] : List ReminderData).length : Int) < limit := by
      simp
      omega
    simp [get_decode, hni, herr, get_loop_take limit (splitChar '\n' (pyStrip raw)) [] hz]
  · rw [List.length_take]
    omega

/-- The five-line raw output used to witness the limit cutoff. -/
def rawFive : List Char :=
  ("n1|||b1|||d1|||true\nn2|||b2|||d2|||false\nn3|||b3|||d3|||true\nn4|||b4|||d4|||false\nn5|||b5|||d5|||true").data

/-- Witness for `get_decode_limit_cutoff`: five valid lines, limit three. -/
theorem get_decode_limit_cutoff_witness :
    get_decode rawFive 3
      = .records ((validRecords (splitChar '\n' (pyStrip rawFive))).take (Int.toNat 3))
    ∧ ((validRecords (splitChar '\n' (pyStrip rawFive))).take (Int.toNat 3)).length
        = Int.toNat 3 :=
  get_decode_limit_cutoff rawFive 3 (by decide) (by decide) (by decide) (by decide)

theorem get_loop_nonpos (limit : Int) (h : limit ≤ 0) :
    ∀ lines : List (List Char),
      get_loop limit lines [] = (validRecords lines).take 1 := by
  intro lines
  induction lines with
  | nil => simp [get_loop, validRecords]
  | cons line rest ih =>
    by_cases hs : (pyStrip line).isEmpty = true
    · rw [get_loop_cons_skip limit line rest [] hs, validRecords_cons_skip line rest hs]
      exact ih
    · by_cases h4 : 4 ≤ (splitPipes line).length
      · rw [get_loop_cons_valid limit line rest [] hs h4,
            validRecords_cons_valid line rest hs h4]
        rw [if_pos (by simp; omega)]
        simp
      · rw [get_loop_cons_invalid limit line rest [] h4,
            validRecords_cons_invalid line rest h4]
        exact ih

/-- C10: for every `limit ≤ 0`, decoding raw output that contains at least
one valid record line still returns exactly one record — the first valid
one — because the cutoff is tested only after a record has been appended. -/
theorem get_decode_nonpositive_limit (raw : List Char) (limit : Int)
    (hlim : limit ≤ 0)
    (hne : raw ≠ [])
    (herr : errTag.isPrefixOf raw = false)
    (hval : validRecords (splitChar '\n' (pyStrip raw)) ≠ []) :
    get_decode raw limit
      = .records ((validRecords (splitChar '\n' (pyStrip raw))).take 1)
    ∧ ((validRecords (splitChar '\n' (pyStrip raw))).take 1).length = 1 := by
  constructor
  · have hni : raw.isEmpty = false := by
      cases raw with
      | nil => exact absurd rfl hne
      | cons c r => rfl
    simp [get_decode, hni, herr, get_loop_nonpos limit hlim]
  · rw [List.length_take]
    have hpos : 0 < (validRecords (splitChar '\n' (pyStrip raw))).length :=
      List.length_pos.mpr hval
    omega

/-- Witness for `get_decode_nonpositive_limit`: one valid line, limit 0. -/
theorem get_decode_nonpositive_limit_witness :
    get_decode ("a|||b|||c|||true").data 0
      = .records ((validRecords (splitChar '\n' (pyStrip ("a|||b|||c|||true").data))).take 1)
    ∧ ((validRecords (splitChar '\n' (pyStrip ("a|||b|||c|||true").data))).take 1).length
        = 1 :=
  get_decode_nonpositive_limit ("a|||b|||c|||true").data 0
    (by decide) (by decide) (by decide) (by decide)

/-- C8: a line splitting into fewer than four fields is silently dropped:
removing it anywhere from the line sequence leaves the loop's decoded
records unchanged, for every accumulator and limit, so the remaining valid
lines still decode. -/
theorem get_loop_drops_short_lines (limit : Int) (line : List Char)
    (h : (splitPipes line).length < 4) :
    ∀ (pre post : List (List Char)) (acc : List ReminderData),
      get_loop limit (pre ++ line :: post) acc = get_loop limit (pre ++ post) acc := by
  have h4 : ¬ 4 ≤ (splitPipes line).length := by omega
  intro pre
  induction pre with
  | nil =>
    intro post acc
    simpa using get_loop_cons_invalid limit line post acc h4
  | cons p pre' ih =>
    intro post acc
    by_cases hs : (pyStrip p).isEmpty = true
    · simp only [List.cons_append, get_loop_cons_skip limit p _ acc hs]
      exact ih post acc
    · by_cases hp4 : 4 ≤ (splitPipes p).length
      · simp only [List.cons_append, get_loop_cons_valid limit p _ acc hs hp4]
        by_cases hbreak : limit ≤ ((acc.length : Int) + 1)
        · rw [if_pos hbreak, if_pos hbreak]
        · rw [if_neg hbreak, if_neg hbreak]
          exact ih post _
      · simp only [List.cons_append, get_loop_cons_invalid limit p _ acc hp4]
        exact ih post acc

/-- Witness for `get_loop_drops_short_lines`: a one-field line before a
valid line contributes nothing. -/
theorem get_loop_drops_short_lines_witness :
    get_loop 20 ([] ++ ("x").data :: [("a|||b|||c|||true").data]) []
      = get_loop 20 ([] ++ [("a|||b|||c|||true").data]) [] :=
  get_loop_drops_short_lines 20 ("x").data (by decide)
    [] [("a|||b|||c|||true").data] []

/-- C9: the completed field decodes to true exactly when the fourth field is
the exact token `true`; the tokens `True`, `TRUE` and the empty token decode
to false, also end-to-end through get decoding. -/
theorem completed_token_exact_true :
    (∀ parts : List (List Char),
      (mkRecord parts).completed = true ↔ parts.getD 3 [] = trueTok)
    ∧ (mkRecord [[], [], [], ('T' :: 'r' :: 'u' :: 'e' :: [])]).completed = false
    ∧ (mkRecord [[], [], [], ('T' :: 'R' :: 'U' :: 'E' :: [])]).completed = false
    ∧ (mkRecord [[], [], [], []]).completed = false
    ∧ get_decode ("a|||b|||c|||True").data 20
        = .records [⟨("a").data, ("b").data, ("c").data, false⟩]
    ∧ get_decode ("a|||b|||c|||true").data 20
        = .records [⟨("a").data, ("b").data, ("c").data, true⟩] := by
  refine ⟨?_, by decide, by decide, by decide, by decide, by decide⟩
  intro parts
  simp [mkRecord]

/-- Witness for `completed_token_exact_true`: the exact token decodes
true. -/
theorem completed_token_exact_true_witness :
    (mkRecord [[], [], [], trueTok]).completed = true :=
  (completed_token_exact_true.1 [[], [], [], trueTok]).mpr (by decide)

/-- C1 fails on the code: with name `a"b` and list `L`, the delete script
text contains the raw name — quote and all — between the single quotes of
the SUCCESS/NOT_FOUND message literals (the source f-string interpolates
`name` and `list_name`, not `safe_name` and `safe_list_name`, there), while
the comparison literal does use the sanitized form; the sanitized form of
the name never appears between single quotes, and differs from the raw
name. -/
theorem delete_script_embeds_raw_name :
    containsSub ([squote] ++ ('a' :: '"' :: 'b' :: []) ++ [squote])
      (delete_script_with_list ('a' :: '"' :: 'b' :: []) ['L']) = true
    ∧ containsSub
        ([squote] ++ sanitize_for_applescript (some ('a' :: '"' :: 'b' :: [])) ++ [squote])
        (delete_script_with_list ('a' :: '"' :: 'b' :: []) ['L']) = false
    ∧ containsSub
        (("is \"").data ++ sanitize_for_applescript (some ('a' :: '"' :: 'b' :: []))
          ++ ("\" then").data)
        (delete_script_with_list ('a' :: '"' :: 'b' :: []) ['L']) = true
    ∧ sanitize_for_applescript (some ('a' :: '"' :: 'b' :: [])) ≠ ('a' :: '"' :: 'b' :: []) :=
  ⟨by decide, by decide, by decide, by decide⟩
